import Mathlib

/-!
Verification development for `scanner.c`, a concurrent file-system tree
walker.  The shared state (bounded circular work queue, in-flight counter,
liveness flag), the queue operations, the per-entry formatting code and the
worker loop are embedded as Lean definitions; the theorems below settle the
spec's claims about them.  Machine integers (`int`, `off_t`, `mode_t`) are
modelled as `Int`/`Nat`; all values arising in the program stay far below
any overflow boundary, and where modular arithmetic occurs in the source
(`% QUEUE_SIZE`) it is reproduced explicitly.
-/

set_option maxHeartbeats 1000000
set_option maxRecDepth 8192
set_option linter.unusedVariables false

namespace Scanner

/-- Capacity of the bounded work queue (`#define QUEUE_SIZE 1000`, scanner.c:16). -/
def QUEUE_SIZE : Int := 1000

/-- Maximum path length in bytes (`#define MAX_PATH_LENGTH 4096`, scanner.c:14). -/
def MAX_PATH_LENGTH : Nat := 4096

/-- Number of worker threads (`#define MAX_THREADS 8`, scanner.c:15). -/
abbrev MAX_THREADS : Nat := 8

/-- Truncation performed by `strncpy(dst, path, MAX_PATH_LENGTH - 1)` followed by
`dst[MAX_PATH_LENGTH - 1] = 0` (scanner.c:76-77): the stored string keeps at
most the first 4095 characters of the source. -/
def cTrunc (s : String) : String := String.mk (s.data.take (MAX_PATH_LENGTH - 1))

/-- State of the `WorkQueue` struct fields touched by the queue operations
(scanner.c:25-35): the circular buffer of path slots and the `front`, `rear`
and `count` fields.  The C `int` fields are modelled as `Int`; the slot array
is a total map from slot index to stored string.  The mutex, the condition
variables, `waiting_threads` and the atomic `active_processes` counter are
modelled separately: each queue function below is the state change performed
by one mutex-protected critical section. -/
structure WorkQueue where
  paths : Int → String
  front : Int
  rear : Int
  count : Int

/-- Effect of `queue_init` (scanner.c:43-52) on the buffer fields: `front = 0`,
`rear = -1`, `count = 0`.  The C slot array is left uninitialised; it is
modelled as all-empty, which is irrelevant because no slot is read before it
is written. -/
def queue_init : WorkQueue := ⟨fun _ => "", 0, -1, 0⟩

/-- Critical section of `queue_push` (scanner.c:63-82) after the wait loop
`while (count >= QUEUE_SIZE && running)` has exited.  If `running` is false
the function returns without inserting (scanner.c:70-73); otherwise it
advances `rear` by one modulo `QUEUE_SIZE`, stores the truncated path there
and increments `count` (scanner.c:75-78).  `Int.emod` agrees with the C `%`
here because `rear + 1` is non-negative in every reachable state
(`rear ≥ -1`). -/
def queue_push : Bool → WorkQueue → String → WorkQueue
  | false, q, _ => q
  | true, q, path =>
    ⟨fun i => if i = (q.rear + 1) % QUEUE_SIZE then cTrunc path else q.paths i,
      q.front, (q.rear + 1) % QUEUE_SIZE, q.count + 1⟩

/-- Result of one completed `queue_pop` call: the C return value
(scanner.c:98 returns 0, scanner.c:107 returns 1), the queue state after the
critical section, the string copied into the caller's buffer, and whether
`pthread_cond_signal(&not_full)` was issued (scanner.c:105). -/
structure PopResult where
  ret : Bool
  q : WorkQueue
  out : Option String
  signaledNotFull : Bool

/-- Critical section of `queue_pop` (scanner.c:84-108) after the wait loop
`while (count == 0 && running)` has exited, so that `count ≠ 0 ∨ running =
false` holds on entry; the body itself only inspects `count`
(scanner.c:96-107).  On success the front slot is copied out, `front`
advances modulo `QUEUE_SIZE` and `count` decrements. -/
def queue_pop (running : Bool) (q : WorkQueue) : PopResult :=
  if q.count = 0 then ⟨false, q, none, false⟩
  else
    ⟨true, ⟨q.paths, (q.front + 1) % QUEUE_SIZE, q.rear, q.count - 1⟩,
      some (q.paths q.front), true⟩

/-- Abstract contents of the circular buffer: the `count` stored paths
starting at `front` and wrapping modulo `QUEUE_SIZE`, oldest first. -/
def toList (q : WorkQueue) : List String :=
  (List.range q.count.toNat).map (fun (i : Nat) => q.paths ((q.front + (i : Int)) % QUEUE_SIZE))

/-- Structural invariant of the queue state maintained by `queue_init`,
`queue_push` and `queue_pop`: the count stays within `[0, QUEUE_SIZE]`, the
`front` cursor is a valid slot index, the `rear` cursor is a valid slot index
or the initialisation sentinel `-1` (which occurs only while the queue has
never been pushed to, where `front = 0` and `count = 0`), and the cursors and
count are linked by the circular-buffer congruence. -/
structure QInv (q : WorkQueue) : Prop where
  count_nonneg : 0 ≤ q.count
  count_le : q.count ≤ QUEUE_SIZE
  front_nonneg : 0 ≤ q.front
  front_lt : q.front < QUEUE_SIZE
  rear_lb : -1 ≤ q.rear
  rear_lt : q.rear < QUEUE_SIZE
  rear_congr : (q.rear + 1) % QUEUE_SIZE = (q.front + q.count) % QUEUE_SIZE
  rear_sentinel : q.rear = -1 → q.front = 0 ∧ q.count = 0

/-- Global state relevant to the serialized queue operations: the queue
struct together with the `running` flag (scanner.c:39, a
`volatile sig_atomic_t`, initially 1). -/
structure SysState where
  q : WorkQueue
  running : Bool

/-- Initial system state: `queue_init(&work_queue)` has run and `running = 1`
(scanner.c:39, scanner.c:194). -/
def initSys : SysState := ⟨queue_init, true⟩

/-- One observable transition of the queue subsystem.  A push completes its
insertion only when `running` holds and the wait loop's exit condition
`count < QUEUE_SIZE` holds (scanner.c:66-78); a push that finds `running`
false returns without inserting (scanner.c:70-73); a pop completes once
`count ≠ 0 ∨ running = false` (scanner.c:89-107); `shutdown` is
`handle_signal` setting `running = 0` (scanner.c:110-114). -/
inductive SysStep : SysState → SysState → Prop
  | push (s : SysState) (x : String) :
      s.running = true → s.q.count < QUEUE_SIZE →
      SysStep s ⟨queue_push true s.q x, true⟩
  | pushAborted (s : SysState) (x : String) :
      s.running = false →
      SysStep s ⟨queue_push false s.q x, false⟩
  | pop (s : SysState) :
      (s.q.count ≠ 0 ∨ s.running = false) →
      SysStep s ⟨(queue_pop s.running s.q).q, s.running⟩
  | shutdown (s : SysState) :
      SysStep s ⟨s.q, false⟩

/-- Reachability of a system state from the freshly initialised queue. -/
inductive Reach : SysState → Prop
  | init : Reach initSys
  | step {s t : SysState} : Reach s → SysStep s t → Reach t

theorem qinv_init : QInv queue_init := by
  constructor <;> simp [queue_init, QUEUE_SIZE]

theorem qinv_push {q : WorkQueue} (h : QInv q) (hc : q.count < QUEUE_SIZE) (x : String) :
    QInv (queue_push true q x) := by
  obtain ⟨h1, h2, h3, h4, h5, h6, h7, h8⟩ := h
  simp only [QUEUE_SIZE] at h1 h2 h3 h4 h5 h6 h7 hc
  refine ⟨?_, ?_, ?_, ?_, ?_, ?_, ?_, ?_⟩ <;>
      simp only [queue_push, QUEUE_SIZE] <;> omega

theorem qinv_pop {q : WorkQueue} (h : QInv q) (r : Bool) : QInv (queue_pop r q).q := by
  by_cases hc : q.count = 0
  · simpa [queue_pop, hc] using h
  · obtain ⟨h1, h2, h3, h4, h5, h6, h7, h8⟩ := h
    simp only [QUEUE_SIZE] at h1 h2 h3 h4 h5 h6 h7
    have h9 : q.rear ≠ -1 := fun hr => absurd (h8 hr).2 hc
    refine ⟨?_, ?_, ?_, ?_, ?_, ?_, ?_, ?_⟩ <;>
        simp only [queue_pop, if_neg hc, QUEUE_SIZE] <;> omega

theorem reach_inv {s : SysState} (h : Reach s) : QInv s.q := by
  induction h with
  | init => exact qinv_init
  | step _ hstep ih =>
    cases hstep with
    | push x hr hc => exact qinv_push ih hc x
    | pushAborted x hr => simpa [queue_push] using ih
    | pop hg => exact qinv_pop ih _
    | shutdown => exact ih

theorem toList_length (q : WorkQueue) : (toList q).length = q.count.toNat := by
  simp [toList]

theorem toList_push {q : WorkQueue} (h : QInv q) (hc : q.count < QUEUE_SIZE) (x : String) :
    toList (queue_push true q x) = toList q ++ [cTrunc x] := by
  obtain ⟨h1, h2, h3, h4, h5, h6, h7, h8⟩ := h
  simp only [QUEUE_SIZE] at h1 h2 h3 h4 h5 h6 h7 hc
  have hn : (q.count + 1).toNat = q.count.toNat + 1 := by omega
  simp only [toList, queue_push, QUEUE_SIZE]
  rw [hn, List.range_succ, List.map_append]
  congr 1
  · apply List.map_congr_left
    intro i hi
    rw [List.mem_range] at hi
    rw [if_neg]
    omega
  · simp only [List.map_cons, List.map_nil]
    rw [if_pos]
    omega

theorem toList_pop {q : WorkQueue} (hc : q.count ≠ 0) (h : QInv q) (r : Bool) :
    (queue_pop r q).ret = true ∧
    (queue_pop r q).out = some (q.paths q.front) ∧
    (queue_pop r q).signaledNotFull = true ∧
    toList q = q.paths q.front :: toList (queue_pop r q).q := by
  obtain ⟨h1, h2, h3, h4, h5, h6, h7, h8⟩ := h
  simp only [QUEUE_SIZE] at h1 h2 h3 h4 h5 h6 h7
  refine ⟨by simp [queue_pop, hc], by simp [queue_pop, hc], by simp [queue_pop, hc], ?_⟩
  obtain ⟨m, hm⟩ : ∃ m, q.count.toNat = m + 1 := ⟨q.count.toNat - 1, by omega⟩
  have hm' : (q.count - 1).toNat = m := by omega
  simp only [toList, queue_pop, if_neg hc, QUEUE_SIZE]
  rw [hm, hm', List.range_succ_eq_map, List.map_cons]
  congr 1
  · congr 1
    omega
  · rw [List.map_map]
    apply List.map_congr_left
    intro i hi
    rw [List.mem_range] at hi
    simp only [Function.comp_apply]
    congr 1
    push_cast
    omega

/-- C2: for every sequence of serialized push/pop operations from the freshly
initialised queue (with shutdown allowed at any point), the count stays within
`[0, QUEUE_SIZE]`: the queue never holds more than `QUEUE_SIZE = 1000` items
and never reports a negative count.  A push completes its insertion only under
the wait-loop guard `count < QUEUE_SIZE` (scanner.c:66-68) and a pop
decrements only in the `count ≠ 0` branch (scanner.c:96-103). -/
theorem queue_count_bounded (s : SysState) (h : Reach s) :
    0 ≤ s.q.count ∧ s.q.count ≤ QUEUE_SIZE :=
  ⟨(reach_inv h).count_nonneg, (reach_inv h).count_le⟩

/-- Witness for `queue_count_bounded` at the state reached by pushing one path
onto the fresh queue. -/
theorem queue_count_bounded_witness :
    0 ≤ (SysState.mk (queue_push true queue_init "root") true).q.count ∧
    (SysState.mk (queue_push true queue_init "root") true).q.count ≤ QUEUE_SIZE := by
  have h : Reach (SysState.mk (queue_push true queue_init "root") true) := by
    have h0 : Reach initSys := Reach.init
    have h1 : SysStep initSys ⟨queue_push true initSys.q "root", true⟩ :=
      SysStep.push initSys "root" rfl (by decide)
    exact Reach.step h0 h1
  exact queue_count_bounded _ h

/-- C5 counterexample: in the freshly initialised (hence reachable) state the
`rear` cursor is `-1` (scanner.c:45), which is not a valid slot index modulo
`QUEUE_SIZE`, refuting the claim that the cursors are valid slot indices in
every reachable state including the state before any push. -/
theorem init_rear_not_slot_index :
    Reach initSys ∧ initSys.q.rear = -1 ∧
    ¬ (0 ≤ initSys.q.rear ∧ initSys.q.rear < QUEUE_SIZE) :=
  ⟨Reach.init, by decide, by decide⟩

/-- C5 (amended): at every reachable state, `front` is a valid slot index, the
count equals exactly the number of valid entries stored in the buffer, and the
cursors are linked to the count by the circular-buffer congruence; `rear` is a
valid slot index in every state whose queue has been pushed to, while in
states before the first push it is the initialisation sentinel `-1` (with
`front = 0` and `count = 0`). -/
theorem queue_cursor_invariant (s : SysState) (h : Reach s) :
    (0 ≤ s.q.front ∧ s.q.front < QUEUE_SIZE) ∧
    (-1 ≤ s.q.rear ∧ s.q.rear < QUEUE_SIZE) ∧
    (s.q.rear = -1 → s.q.front = 0 ∧ s.q.count = 0) ∧
    (0 < s.q.count → 0 ≤ s.q.rear) ∧
    (s.q.rear + 1) % QUEUE_SIZE = (s.q.front + s.q.count) % QUEUE_SIZE ∧
    (toList s.q).length = s.q.count.toNat := by
  obtain ⟨h1, h2, h3, h4, h5, h6, h7, h8⟩ := reach_inv h
  refine ⟨⟨h3, h4⟩, ⟨h5, h6⟩, h8, ?_, h7, toList_length s.q⟩
  intro hpos
  rcases lt_or_eq_of_le h5 with h' | h'
  · omega
  · exact absurd (h8 h'.symm).2 (by omega)

/-- System state reached from `initSys` by one completed push of `"root"`
followed by one completed pop. -/
def popped : SysState :=
  ⟨(queue_pop true (queue_push true queue_init "root")).q, true⟩

/-- Witness for `queue_cursor_invariant` at the state reached by one push
followed by one pop. -/
theorem queue_cursor_invariant_witness :
    (0 ≤ popped.q.front ∧ popped.q.front < QUEUE_SIZE) ∧
    (-1 ≤ popped.q.rear ∧ popped.q.rear < QUEUE_SIZE) ∧
    (popped.q.rear = -1 → popped.q.front = 0 ∧ popped.q.count = 0) ∧
    (0 < popped.q.count → 0 ≤ popped.q.rear) ∧
    (popped.q.rear + 1) % QUEUE_SIZE = (popped.q.front + popped.q.count) % QUEUE_SIZE ∧
    (toList popped.q).length = popped.q.count.toNat := by
  have h0 : Reach initSys := Reach.init
  have h1 : SysStep initSys ⟨queue_push true initSys.q "root", true⟩ :=
    SysStep.push initSys "root" rfl (by decide)
  have h2 : SysStep ⟨queue_push true initSys.q "root", true⟩ popped := by
    have := SysStep.pop ⟨queue_push true initSys.q "root", true⟩ (Or.inl (by decide))
    simpa [popped] using this
  exact queue_cursor_invariant popped (Reach.step (Reach.step h0 h1) h2)

/-- C4: the shutdown contract of the queue operations.  A push that observes
`running = false` returns without inserting (scanner.c:70-73).  A pop that
finds the queue nonempty returns the front item, decrements the count and
signals "space available" (scanner.c:101-107).  A pop that has been allowed
to leave its wait loop (so `count ≠ 0 ∨ running = false`) reports "empty"
exactly when `running` is false and the queue holds nothing
(scanner.c:96-98). -/
theorem queue_shutdown_contract :
    (∀ (q : WorkQueue) (x : String), queue_push false q x = q) ∧
    (∀ (r : Bool) (q : WorkQueue), q.count ≠ 0 →
      (queue_pop r q).ret = true ∧
      (queue_pop r q).out = some (q.paths q.front) ∧
      (queue_pop r q).signaledNotFull = true ∧
      (queue_pop r q).q.count = q.count - 1) ∧
    (∀ (r : Bool) (q : WorkQueue), (q.count ≠ 0 ∨ r = false) →
      ((queue_pop r q).ret = false ↔ r = false ∧ q.count = 0)) := by
  refine ⟨fun q x => rfl, ?_, ?_⟩
  · intro r q hc
    refine ⟨?_, ?_, ?_, ?_⟩ <;> simp [queue_pop, hc]
  · intro r q hg
    by_cases hc : q.count = 0
    · rcases hg with hg | hg
      · exact absurd hc hg
      · simp [queue_pop, hc, hg]
    · simp [queue_pop, hc]

/-- Witness for `queue_shutdown_contract`: a pop on the empty initial queue
after shutdown reports "empty", and a pop on a one-element queue succeeds. -/
theorem queue_shutdown_contract_witness :
    ((queue_pop false queue_init).ret = false ↔ false = false ∧ queue_init.count = 0) ∧
    (queue_pop true (queue_push true queue_init "root")).ret = true :=
  ⟨queue_shutdown_contract.2.2 false queue_init (Or.inr rfl),
   (queue_shutdown_contract.2.1 true (queue_push true queue_init "root") (by decide)).1⟩

/-- C9: once the liveness flag is false, every call to `queue_push` returns
without inserting — including calls that never block because the queue has
free space: the wait loop at scanner.c:66 is skipped when `count <
QUEUE_SIZE`, yet the `if (!running)` check at scanner.c:70 still returns
before any insertion, so a sub-directory discovered during an expansion that
overlaps shutdown is silently dropped regardless of queue occupancy. -/
theorem push_after_shutdown_noop :
    (∀ (q : WorkQueue) (x : String), queue_push false q x = q) ∧
    queue_init.count < QUEUE_SIZE ∧
    queue_push false queue_init "sub" = queue_init :=
  ⟨fun q x => rfl, by decide, rfl⟩

/-- One serialized queue operation of a shutdown-free run: a push of a given
path, or a pop. -/
inductive QOp where
  | push : String → QOp
  | pop : QOp
deriving DecidableEq

/-- Sequential execution of a list of queue operations with `running = true`
throughout, collecting the strings returned by successful pops in order. -/
def runOps : WorkQueue → List QOp → WorkQueue × List String
  | q, [] => (q, [])
  | q, QOp.push s :: rest => runOps (queue_push true q s) rest
  | q, QOp.pop :: rest =>
    ((runOps (queue_pop true q).q rest).1,
      (queue_pop true q).out.toList ++ (runOps (queue_pop true q).q rest).2)

/-- Paths pushed by a list of operations, in order. -/
def pushedList : List QOp → List String
  | [] => []
  | QOp.push s :: rest => s :: pushedList rest
  | QOp.pop :: rest => pushedList rest

/-- Number of pops in a list of operations. -/
def popCount : List QOp → Nat
  | [] => 0
  | QOp.push _ :: rest => popCount rest
  | QOp.pop :: rest => 1 + popCount rest

/-- A run is admissible when every push finds the queue below capacity and
every pop finds it nonempty; in the live system these are exactly the
conditions under which the blocked operation would eventually be allowed to
proceed by its wait loop. -/
def admissibleFrom : WorkQueue → List QOp → Bool
  | _, [] => true
  | q, QOp.push s :: rest =>
    decide (q.count < QUEUE_SIZE) && admissibleFrom (queue_push true q s) rest
  | q, QOp.pop :: rest =>
    decide (q.count ≠ 0) && admissibleFrom (queue_pop true q).q rest

/-- Every pop of the run returned 1 (found an item). -/
def allPopsOk : WorkQueue → List QOp → Bool
  | _, [] => true
  | q, QOp.push s :: rest => allPopsOk (queue_push true q s) rest
  | q, QOp.pop :: rest => (queue_pop true q).ret && allPopsOk (queue_pop true q).q rest

theorem runOps_fifo : ∀ (ops : List QOp) (q : WorkQueue), QInv q →
    admissibleFrom q ops = true →
    (runOps q ops).2.length = popCount ops ∧
    (runOps q ops).2 ++ toList (runOps q ops).1 =
      toList q ++ (pushedList ops).map cTrunc ∧
    QInv (runOps q ops).1 ∧
    allPopsOk q ops = true := by
  intro ops
  induction ops with
  | nil => intro q hq _; simp [runOps, pushedList, popCount, allPopsOk]; exact hq
  | cons op rest ih =>
    intro q hq hadm
    cases op with
    | push s =>
      rw [admissibleFrom, Bool.and_eq_true, decide_eq_true_eq] at hadm
      obtain ⟨hc, hadm⟩ := hadm
      obtain ⟨hl, hchain, hinv, hok⟩ := ih (queue_push true q s) (qinv_push hq hc s) hadm
      refine ⟨?_, ?_, ?_, ?_⟩
      · simpa [runOps, popCount] using hl
      · simp only [runOps, pushedList, List.map_cons]
        rw [hchain, toList_push hq hc s]
        simp
      · simpa [runOps] using hinv
      · simpa [allPopsOk] using hok
    | pop =>
      rw [admissibleFrom, Bool.and_eq_true, decide_eq_true_eq] at hadm
      obtain ⟨hc, hadm⟩ := hadm
      obtain ⟨hret, hout, hsig, hlist⟩ := toList_pop hc hq true
      obtain ⟨hl, hchain, hinv, hok⟩ := ih (queue_pop true q).q (qinv_pop hq true) hadm
      refine ⟨?_, ?_, ?_, ?_⟩
      · simp only [runOps, popCount, List.length_append, hout, Option.toList_some]
        simp [hl]
      · simp only [runOps, pushedList, hout, Option.toList_some, List.nil_append,
          List.cons_append]
        rw [hchain, hlist]
        simp
      · simpa [runOps] using hinv
      · rw [allPopsOk, Bool.and_eq_true]
        exact ⟨hret, hok⟩

theorem cTrunc_eq_of_le {s : String} (h : s.length ≤ MAX_PATH_LENGTH - 1) :
    cTrunc s = s := by
  have : s.data.length ≤ MAX_PATH_LENGTH - 1 := h
  simp [cTrunc, List.take_of_length_le this]

/-- C3: the work queue is FIFO.  For every admissible, shutdown-free sequence
of pushes and pops starting from the fresh queue (paths within the
`MAX_PATH_LENGTH` bound), the pops return exactly the pushed items in push
order (the first `popCount` of them), the items still queued are the
remaining pushed items in order (so each pushed item is popped at most once
and none is lost), and no pop reported "empty" while an item was available. -/
theorem queue_fifo (ops : List QOp)
    (hadm : admissibleFrom queue_init ops = true)
    (hlen : ∀ x ∈ pushedList ops, x.length ≤ MAX_PATH_LENGTH - 1) :
    (runOps queue_init ops).2 = (pushedList ops).take (popCount ops) ∧
    toList (runOps queue_init ops).1 = (pushedList ops).drop (popCount ops) ∧
    allPopsOk queue_init ops = true := by
  obtain ⟨hl, hchain, hinv, hok⟩ := runOps_fifo ops queue_init qinv_init hadm
  have hmap : (pushedList ops).map cTrunc = pushedList ops := by
    rw [List.map_congr_left (fun x hx => cTrunc_eq_of_le (hlen x hx))]
    simp
  rw [hmap] at hchain
  have hinit : toList queue_init = [] := rfl
  rw [hinit, List.nil_append] at hchain
  refine ⟨?_, ?_, hok⟩
  · have h1 : (runOps queue_init ops).2 =
        ((runOps queue_init ops).2 ++
          toList (runOps queue_init ops).1).take (runOps queue_init ops).2.length :=
      (List.take_left _ _).symm
    rw [h1, hchain, hl]
  · have h2 : toList (runOps queue_init ops).1 =
        ((runOps queue_init ops).2 ++
          toList (runOps queue_init ops).1).drop (runOps queue_init ops).2.length :=
      (List.drop_left _ _).symm
    rw [h2, hchain, hl]

/-- Witness for `queue_fifo`: pushing `"a"` then `"b"` and popping twice
returns `"a"` then `"b"` and leaves the queue empty. -/
theorem queue_fifo_witness :
    (runOps queue_init [QOp.push "a", QOp.push "b", QOp.pop, QOp.pop]).2 =
      (pushedList [QOp.push "a", QOp.push "b", QOp.pop, QOp.pop]).take
        (popCount [QOp.push "a", QOp.push "b", QOp.pop, QOp.pop]) ∧
    toList (runOps queue_init [QOp.push "a", QOp.push "b", QOp.pop, QOp.pop]).1 =
      (pushedList [QOp.push "a", QOp.push "b", QOp.pop, QOp.pop]).drop
        (popCount [QOp.push "a", QOp.push "b", QOp.pop, QOp.pop]) ∧
    allPopsOk queue_init [QOp.push "a", QOp.push "b", QOp.pop, QOp.pop] = true :=
  queue_fifo [QOp.push "a", QOp.push "b", QOp.pop, QOp.pop] (by decide) (by decide)

/-- Fields of `struct stat` read by the program after a successful `lstat`
(scanner.c:125-127): `st_size`, `st_mode`, `st_mtime`. -/
structure StatResult where
  size : Int
  mode : Nat
  mtime : Int
deriving DecidableEq

/-- POSIX file-type mask `S_IFMT = 0170000`. -/
def S_IFMT : Nat := 0o170000

/-- POSIX directory type bits `S_IFDIR = 0040000`. -/
def S_IFDIR : Nat := 0o040000

/-- POSIX regular-file type bits `S_IFREG = 0100000`. -/
def S_IFREG : Nat := 0o100000

/-- POSIX symbolic-link type bits `S_IFLNK = 0120000`. -/
def S_IFLNK : Nat := 0o120000

/-- The `S_ISDIR` test: `(mode & S_IFMT) == S_IFDIR`. -/
def S_ISDIR (m : Nat) : Bool := m &&& S_IFMT == S_IFDIR

/-- The `S_ISREG` test: `(mode & S_IFMT) == S_IFREG`. -/
def S_ISREG (m : Nat) : Bool := m &&& S_IFMT == S_IFREG

/-- The `S_ISLNK` test: `(mode & S_IFMT) == S_IFLNK`. -/
def S_ISLNK (m : Nat) : Bool := m &&& S_IFMT == S_IFLNK

/-- Type tag printed by `process_file` (scanner.c:132-134): the chained
conditional testing `S_ISDIR`, then `S_ISREG`, then `S_ISLNK`, defaulting to
`"Other"`. -/
def fileTypeString (m : Nat) : String :=
  if S_ISDIR m then "Directory"
  else if S_ISREG m then "Regular File"
  else if S_ISLNK m then "Symbolic Link"
  else "Other"

/-- Rendering of `printf`'s `%o` conversion: the base-8 digits of the value,
most significant first, with `0` rendered as `"0"`. -/
def octalStr (n : Nat) : String := String.mk (Nat.toDigits 8 n)

/-- Value denoted by a string of octal digits (inverse of `%o`). -/
def ofOctal (s : String) : Nat := s.data.foldl (fun a c => 8 * a + (c.toNat - 48)) 0

/-- One event on the output stream: a text line written by `fprintf`
(modelled without the terminating newline; the `Last Modified` line's text
includes whatever `ctime` produced) or an `fflush` call. -/
inductive OutEvent where
  | line : String → OutEvent
  | flush : OutEvent
deriving DecidableEq

/-- The block of output-stream events issued by `process_file` for one
successfully resolved entry (scanner.c:129-139), in order: path, size in
bytes, type tag, permission bits in octal, last-modified timestamp, the
separator line, and the flush. -/
def record_block (ctimeR : Int → String) (p : String) (st : StatResult) : List OutEvent :=
  [OutEvent.line ("Path: " ++ p),
   OutEvent.line ("Size: " ++ toString st.size ++ " bytes"),
   OutEvent.line ("Type: " ++ fileTypeString st.mode),
   OutEvent.line ("Permissions: " ++ octalStr (st.mode &&& 0o777)),
   OutEvent.line ("Last Modified: " ++ ctimeR st.mtime),
   OutEvent.line "-------------------",
   OutEvent.flush]

/-- The `process_file` function (scanner.c:116-140): `lstat` the path via the
metadata oracle `statFn`; on failure return with no output, otherwise emit
the record block.  `ctimeR` abstracts the libc `ctime` rendering of the
timestamp. -/
def process_file (statFn : String → Option StatResult) (ctimeR : Int → String)
    (p : String) : List OutEvent :=
  match statFn p with
  | none => []
  | some st => record_block ctimeR p st

theorem fileTypeString_mem (m : Nat) :
    fileTypeString m ∈ (["Directory", "Regular File", "Symbolic Link", "Other"] : List String) := by
  unfold fileTypeString
  split_ifs <;> simp

theorem ofOctal_octalStr : ∀ n, n < 512 → ofOctal (octalStr n) = n := by decide

/-- C6: every record written to the output file is the fixed-shape block
containing, in order, the path, the size in bytes, a type tag drawn from the
four fixed strings, the permission bits `mode & 0777` printed in octal, the
human-readable timestamp, and the separator line, with the stream flushed at
the end of the block (scanner.c:129-139). -/
theorem output_record_shape (statFn : String → Option StatResult)
    (ctimeR : Int → String) (p : String) (st : StatResult)
    (h : statFn p = some st) :
    process_file statFn ctimeR p =
      [OutEvent.line ("Path: " ++ p),
       OutEvent.line ("Size: " ++ toString st.size ++ " bytes"),
       OutEvent.line ("Type: " ++ fileTypeString st.mode),
       OutEvent.line ("Permissions: " ++ octalStr (st.mode &&& 0o777)),
       OutEvent.line ("Last Modified: " ++ ctimeR st.mtime),
       OutEvent.line "-------------------",
       OutEvent.flush] ∧
    fileTypeString st.mode ∈ (["Directory", "Regular File", "Symbolic Link", "Other"] : List String) ∧
    st.mode &&& 0o777 < 512 ∧
    ofOctal (octalStr (st.mode &&& 0o777)) = st.mode &&& 0o777 ∧
    (process_file statFn ctimeR p).getLast? = some OutEvent.flush := by
  have hlt : st.mode &&& 0o777 < 512 := Nat.lt_succ_of_le Nat.and_le_right
  refine ⟨by simp [process_file, h, record_block], fileTypeString_mem st.mode, hlt,
    ofOctal_octalStr _ hlt, by simp [process_file, h, record_block]⟩

/-- Witness for `output_record_shape` at a concrete regular-file stat
result. -/
theorem output_record_shape_witness :
    process_file (fun _ => some ⟨10, 0o100644, 0⟩) (fun _ => "ts") "r/a.txt" =
      [OutEvent.line ("Path: " ++ "r/a.txt"),
       OutEvent.line ("Size: " ++ toString (10 : Int) ++ " bytes"),
       OutEvent.line ("Type: " ++ fileTypeString 0o100644),
       OutEvent.line ("Permissions: " ++ octalStr (0o100644 &&& 0o777)),
       OutEvent.line ("Last Modified: " ++ "ts"),
       OutEvent.line "-------------------",
       OutEvent.flush] ∧
    fileTypeString 0o100644 ∈ (["Directory", "Regular File", "Symbolic Link", "Other"] : List String) ∧
    0o100644 &&& 0o777 < 512 ∧
    ofOctal (octalStr (0o100644 &&& 0o777)) = 0o100644 &&& 0o777 ∧
    (process_file (fun _ => some ⟨10, 0o100644, 0⟩) (fun _ => "ts") "r/a.txt").getLast? =
      some OutEvent.flush :=
  output_record_shape (fun _ => some ⟨10, 0o100644, 0⟩) (fun _ => "ts") "r/a.txt"
    ⟨10, 0o100644, 0⟩ rfl

/-- Processing of one directory entry by the worker loop (scanner.c:161-173):
the worker builds `full_path = path ++ "/" ++ name`, `lstat`s it and skips the
entry when that fails, otherwise calls `process_file` on the same path (which
performs its own `lstat` through the same oracle) and pushes the path when
`S_ISDIR(st.st_mode)` holds.  Returns the emitted output events and the list
of pushed paths (zero or one). -/
def child_step (statFn : String → Option StatResult) (ctimeR : Int → String)
    (fullPath : String) : List OutEvent × List String :=
  match statFn fullPath with
  | none => ([], [])
  | some st =>
    (process_file statFn ctimeR fullPath,
      if S_ISDIR st.mode then [fullPath] else [])

/-- The `readdir` loop over a directory's entries (scanner.c:156-174): the
entries `"."` and `".."` are skipped, each remaining name is handled by
`child_step`, and nothing at all is processed when `running` is false (the
loop condition `entry != NULL && running` fails immediately; a mid-listing
flip of `running` is a concurrency effect outside this sequential model). -/
def expand_dir : Bool → (String → Option StatResult) → (Int → String) →
    String → List String → List OutEvent × List String
  | false, _, _, _, _ => ([], [])
  | true, statFn, ctimeR, p, names =>
    ((names.filter (fun n => !(n == "." || n == ".."))).flatMap
        (fun n => (child_step statFn ctimeR (p ++ "/" ++ n)).1),
      (names.filter (fun n => !(n == "." || n == ".."))).flatMap
        (fun n => (child_step statFn ctimeR (p ++ "/" ++ n)).2))

/-- Observable effects of one iteration of the worker loop body
(scanner.c:146-180). -/
structure IterResult where
  events : List OutEvent
  pushes : List String
  activeIncs : Nat
  activeDecs : Nat
  continues : Bool
deriving DecidableEq

/-- One iteration of `worker_thread`'s loop (scanner.c:146-180): `popResult`
is the outcome of `queue_pop` (`none` when it returned 0, upon which the
worker breaks out, scanner.c:147-149); `listing p` is the outcome of
`opendir` (`none` when the directory cannot be opened, scanner.c:153-154, in
which case the listing is skipped silently).  After a successful pop the
worker increments `active_processes`, expands the directory, decrements
`active_processes`, runs `check_termination_condition` and loops back when
`running` still holds. -/
def worker_iter (running : Bool) (statFn : String → Option StatResult)
    (ctimeR : Int → String) (popResult : Option String)
    (listing : String → Option (List String)) : IterResult :=
  match popResult with
  | none => ⟨[], [], 0, 0, false⟩
  | some p =>
    match listing p with
    | none => ⟨[], [], 1, 1, running⟩
    | some names =>
      ⟨(expand_dir running statFn ctimeR p names).1,
        (expand_dir running statFn ctimeR p names).2, 1, 1, running⟩

theorem isLnk_type {m : Nat} (h : S_ISLNK m = true) :
    fileTypeString m = "Symbolic Link" ∧ S_ISDIR m = false := by
  have h' : m &&& S_IFMT = S_IFLNK := by
    simpa [S_ISLNK] using h
  simp only [S_IFMT, S_IFLNK] at h'
  constructor
  · simp [fileTypeString, S_ISDIR, S_ISREG, S_ISLNK, h', S_IFMT, S_IFDIR, S_IFREG, S_IFLNK]
  · simp [S_ISDIR, h', S_IFMT, S_IFDIR]

/-- C7: the walk inspects entries with `lstat` (non-dereferencing), so a
symbolic link's record carries the type tag `"Symbolic Link"` (its own mode,
not the target's), and the link is never enqueued for expansion even when it
points to a directory, because `S_ISDIR` is false on `S_IFLNK` mode bits
(scanner.c:165, 169, 171-173). -/
theorem symlink_reported_not_followed (statFn : String → Option StatResult)
    (ctimeR : Int → String) (p : String) (st : StatResult)
    (h : statFn p = some st) (hl : S_ISLNK st.mode = true) :
    OutEvent.line "Type: Symbolic Link" ∈ (child_step statFn ctimeR p).1 ∧
    (child_step statFn ctimeR p).2 = [] := by
  obtain ⟨hts, hdir⟩ := isLnk_type hl
  have happ : ("Type: " ++ "Symbolic Link" : String) = "Type: Symbolic Link" := rfl
  constructor
  · simp [child_step, h, process_file, record_block, hts, happ]
  · simp [child_step, h, hdir]

/-- Witness for `symlink_reported_not_followed` at a concrete symlink stat
result (mode `0120777`). -/
theorem symlink_reported_not_followed_witness :
    OutEvent.line "Type: Symbolic Link" ∈
      (child_step (fun _ => some ⟨5, 0o120777, 0⟩) (fun _ => "ts") "r/link").1 ∧
    (child_step (fun _ => some ⟨5, 0o120777, 0⟩) (fun _ => "ts") "r/link").2 = [] :=
  symlink_reported_not_followed (fun _ => some ⟨5, 0o120777, 0⟩) (fun _ => "ts")
    "r/link" ⟨5, 0o120777, 0⟩ rfl (by decide)

/-- C8: filesystem errors during the walk are swallowed per occurrence.  A
directory that cannot be opened for listing produces no output and no pushes,
yet the worker still registers and deregisters as in-flight and continues its
loop (scanner.c:153-154, 178-179); a child whose `lstat` fails is skipped via
`continue` (scanner.c:165-167) and the remaining children are processed as if
the failing entry were absent from the listing. -/
theorem fs_errors_swallowed (statFn : String → Option StatResult)
    (ctimeR : Int → String) (p : String) :
    worker_iter true statFn ctimeR (some p) (fun _ => none) =
      ⟨[], [], 1, 1, true⟩ ∧
    (∀ (n : String) (pre post : List String),
      (n == "." || n == "..") = false →
      statFn (p ++ "/" ++ n) = none →
      expand_dir true statFn ctimeR p (pre ++ n :: post) =
        expand_dir true statFn ctimeR p (pre ++ post)) := by
  constructor
  · rfl
  · intro n pre post hn hstat
    have hc : child_step statFn ctimeR (p ++ "/" ++ n) = ([], []) := by
      simp [child_step, hstat]
    have hn1 : n ≠ "." ∧ n ≠ ".." := by simpa using hn
    simp [expand_dir, List.filter_append, List.filter_cons, hn1.1, hn1.2,
      List.flatMap_append, List.flatMap_cons, hc]

/-- Witness for `fs_errors_swallowed`: a listing containing a good entry, a
stat-failing entry and another good entry behaves like the listing without
the failing entry; an unopenable directory leaves the worker looping. -/
theorem fs_errors_swallowed_witness :
    (worker_iter true
        (fun s => if s = "r/bad" then none else some ⟨1, 0o100644, 0⟩)
        (fun _ => "ts") (some "r") (fun _ => none) =
      ⟨[], [], 1, 1, true⟩) ∧
    expand_dir true (fun s => if s = "r/bad" then none else some ⟨1, 0o100644, 0⟩)
        (fun _ => "ts") "r" (["good"] ++ "bad" :: ["ok"]) =
      expand_dir true (fun s => if s = "r/bad" then none else some ⟨1, 0o100644, 0⟩)
        (fun _ => "ts") "r" (["good"] ++ ["ok"]) := by
  have h := fs_errors_swallowed
    (fun s => if s = "r/bad" then none else some ⟨1, 0o100644, 0⟩) (fun _ => "ts") "r"
  exact ⟨h.1, h.2 "bad" ["good"] ["ok"] (by decide) (by decide)⟩

/-- A finite, acyclic filesystem tree.  A node is a directory with named
children or a non-directory leaf (regular file, symlink, or anything else
`opendir` rejects); each node carries the `lstat` result the walk observes
for it.  The `readdir` pseudo-entries `"."` and `".."` are not part of a
node's children (the worker discards them before any processing,
scanner.c:157-159), and metadata resolution succeeds for every modelled
entry (failures are the subject of `fs_errors_swallowed`). -/
inductive FSNode where
  | leaf : StatResult → FSNode
  | dir : StatResult → List (String × FSNode) → FSNode

/-- The `lstat` result of a node. -/
def nodeStat : FSNode → StatResult
  | FSNode.leaf st => st
  | FSNode.dir st _ => st

mutual

/-- Number of nodes of a filesystem subtree (termination measure of the
walk). -/
def FSNode.weight : FSNode → Nat
  | FSNode.leaf _ => 1
  | FSNode.dir _ cs => 1 + childrenWeight cs

/-- Total weight of a list of named children. -/
def childrenWeight : List (String × FSNode) → Nat
  | [] => 0
  | (_, c) :: rest => FSNode.weight c + childrenWeight rest

end

/-- Weight of a queue of pending (path, subtree) work items. -/
def queueWeight (q : List (String × FSNode)) : Nat := (q.map (fun x => x.2.weight)).sum

theorem queueWeight_append (a b : List (String × FSNode)) :
    queueWeight (a ++ b) = queueWeight a + queueWeight b := by
  simp [queueWeight]

theorem queueWeight_cons (x : String × FSNode) (l : List (String × FSNode)) :
    queueWeight (x :: l) = x.2.weight + queueWeight l := by
  simp [queueWeight]

theorem childrenWeight_cons (n : String) (c : FSNode) (t : List (String × FSNode)) :
    childrenWeight ((n, c) :: t) = c.weight + childrenWeight t := rfl

theorem weight_filter_le (P : String × FSNode → Bool) (g : String × FSNode → String) :
    ∀ cs : List (String × FSNode),
      queueWeight ((cs.filter P).map (fun c => (g c, c.2))) ≤ childrenWeight cs := by
  intro cs
  induction cs with
  | nil => simp [queueWeight, childrenWeight]
  | cons x t ih =>
    obtain ⟨n, c⟩ := x
    rw [List.filter_cons, childrenWeight_cons]
    by_cases hp : P (n, c)
    · rw [if_pos hp, List.map_cons, queueWeight_cons]
      have hd : ((g (n, c), (n, c).2) : String × FSNode).2.weight = c.weight := rfl
      omega
    · rw [if_neg hp]
      omega

theorem walk_dec (p : String) (st : StatResult) (cs rest : List (String × FSNode)) :
    queueWeight (rest ++ (cs.filter (fun c => S_ISDIR (nodeStat c.2).mode)).map
      (fun c => (p ++ "/" ++ c.1, c.2))) < queueWeight ((p, FSNode.dir st cs) :: rest) := by
  rw [queueWeight_append, queueWeight_cons]
  have h := weight_filter_le (fun c => S_ISDIR (nodeStat c.2).mode)
    (fun c => p ++ "/" ++ c.1) cs
  have hd : ((p, FSNode.dir st cs) : String × FSNode).2.weight = 1 + childrenWeight cs := rfl
  omega

theorem walk_dec_leaf (p : String) (st : StatResult) (rest : List (String × FSNode)) :
    queueWeight rest < queueWeight ((p, FSNode.leaf st) :: rest) := by
  rw [queueWeight_cons]
  have hd : ((p, FSNode.leaf st) : String × FSNode).2.weight = 1 := rfl
  omega

/-- The queue-driven walk (scanner.c:146-180 iterated to exhaustion on a
stable, finite, acyclic tree, the queue abstracted as an unbounded FIFO
list: capacity and path truncation are the subject of the `WorkQueue`
theorems).  Popping a path whose node is not a directory makes `opendir`
fail, so its expansion is skipped; popping a directory emits one record per
child at path `p ++ "/" ++ name` carrying the child's own `lstat` data, and
enqueues the children whose mode satisfies `S_ISDIR` (scanner.c:156-173).
Records are (path, stat) pairs; `walkEvents` renders them through
`record_block` exactly as `process_file` writes them. -/
def walk : List (String × FSNode) → List (String × StatResult)
  | [] => []
  | (_, FSNode.leaf _) :: rest => walk rest
  | (p, FSNode.dir _ cs) :: rest =>
    cs.map (fun c => (p ++ "/" ++ c.1, nodeStat c.2)) ++
      walk (rest ++ (cs.filter (fun c => S_ISDIR (nodeStat c.2).mode)).map
        (fun c => (p ++ "/" ++ c.1, c.2)))
termination_by q => queueWeight q
decreasing_by
  all_goals first
  | apply walk_dec
  | apply walk_dec_leaf

theorem walk_nil : walk [] = [] := by rw [walk.eq_def]

theorem walk_leaf (p : String) (st : StatResult) (rest : List (String × FSNode)) :
    walk ((p, FSNode.leaf st) :: rest) = walk rest := by rw [walk.eq_def]

theorem walk_dir (p : String) (st : StatResult) (cs rest : List (String × FSNode)) :
    walk ((p, FSNode.dir st cs) :: rest) =
      cs.map (fun c => (p ++ "/" ++ c.1, nodeStat c.2)) ++
        walk (rest ++ (cs.filter (fun c => S_ISDIR (nodeStat c.2).mode)).map
          (fun c => (p ++ "/" ++ c.1, c.2))) := by
  rw [walk.eq_def]

/-- The full output-stream event sequence of the walk: each record rendered
by `record_block`, in walk order. -/
def walkEvents (ctimeR : Int → String) (q : List (String × FSNode)) : List OutEvent :=
  (walk q).flatMap (fun y => record_block ctimeR y.1 y.2)

theorem weight_pos (c : FSNode) : 1 ≤ c.weight := by
  cases c with
  | leaf st =>
    have h : (FSNode.leaf st).weight = 1 := rfl
    omega
  | dir st cs =>
    have h : (FSNode.dir st cs).weight = 1 + childrenWeight cs := rfl
    omega

theorem walk_min_length (m : Nat) : ∀ (w : Nat) (q : List (String × FSNode)),
    queueWeight q ≤ w → (∀ x ∈ q, m ≤ x.1.length) →
    ∀ y ∈ walk q, m < y.1.length := by
  intro w
  induction w with
  | zero =>
    intro q hw hq y hy
    cases q with
    | nil => rw [walk_nil] at hy; simp at hy
    | cons x rest =>
      obtain ⟨n, c⟩ := x
      exfalso
      rw [queueWeight_cons] at hw
      have h1 := weight_pos c
      have hd : ((n, c) : String × FSNode).2.weight = c.weight := rfl
      omega
  | succ w ih =>
    intro q hw hq y hy
    cases q with
    | nil => rw [walk_nil] at hy; simp at hy
    | cons x rest =>
      obtain ⟨p, c⟩ := x
      cases c with
      | leaf st =>
        rw [walk_leaf] at hy
        refine ih rest ?_ (fun x hx => hq x (List.mem_cons_of_mem _ hx)) y hy
        rw [queueWeight_cons] at hw
        have hd : ((p, FSNode.leaf st) : String × FSNode).2.weight = 1 := rfl
        omega
      | dir st cs =>
        have hp : m ≤ p.length := hq (p, FSNode.dir st cs) (List.mem_cons_self _ _)
        rw [walk_dir] at hy
        rcases List.mem_append.mp hy with hy | hy
        · obtain ⟨c', hc', hyc⟩ := List.mem_map.mp hy
          have hy1 : y.1 = p ++ "/" ++ c'.1 := by rw [← hyc]
          rw [hy1, String.length_append, String.length_append]
          have h1 : ("/" : String).length = 1 := rfl
          omega
        · refine ih (rest ++ (cs.filter (fun c => S_ISDIR (nodeStat c.2).mode)).map
            (fun c => (p ++ "/" ++ c.1, c.2))) ?_ ?_ y hy
          · have h := weight_filter_le (fun c => S_ISDIR (nodeStat c.2).mode)
              (fun c => p ++ "/" ++ c.1) cs
            rw [queueWeight_append]
            rw [queueWeight_cons] at hw
            have hd : ((p, FSNode.dir st cs) : String × FSNode).2.weight =
                1 + childrenWeight cs := rfl
            omega
          · intro x hx
            rcases List.mem_append.mp hx with hx | hx
            · exact hq x (List.mem_cons_of_mem _ hx)
            · obtain ⟨c', hc', hxc⟩ := List.mem_map.mp hx
              have hx1 : x.1 = p ++ "/" ++ c'.1 := by rw [← hxc]
              rw [hx1, String.length_append, String.length_append]
              have h1 : ("/" : String).length = 1 := rfl
              omega

/-- C10: no record is ever emitted for the root path itself — records are
produced only for entries discovered as children of a dequeued directory, at
the strictly longer path `parent ++ "/" ++ name` — and a run whose root is an
empty directory or a non-directory produces an empty output file
(scanner.c:146-176: `process_file` is called only on `full_path` values built
inside the listing loop; the root is only pushed, scanner.c:202). -/
theorem no_root_record :
    (∀ (r : String) (st : StatResult), walk [(r, FSNode.dir st [])] = []) ∧
    (∀ (r : String) (st : StatResult), walk [(r, FSNode.leaf st)] = []) ∧
    (∀ (ctimeR : Int → String) (r : String) (st : StatResult),
      walkEvents ctimeR [(r, FSNode.dir st [])] = [] ∧
      walkEvents ctimeR [(r, FSNode.leaf st)] = []) ∧
    (∀ (r : String) (t : FSNode) (y : String × StatResult),
      y ∈ walk [(r, t)] → r.length < y.1.length ∧ y.1 ≠ r) := by
  have hdir : ∀ (r : String) (st : StatResult), walk [(r, FSNode.dir st [])] = [] := by
    intro r st
    rw [walk_dir]
    simp [walk_nil]
  have hleaf : ∀ (r : String) (st : StatResult), walk [(r, FSNode.leaf st)] = [] := by
    intro r st
    rw [walk_leaf, walk_nil]
  refine ⟨hdir, hleaf, ?_, ?_⟩
  · intro ctimeR r st
    constructor <;> simp [walkEvents, hdir, hleaf]
  · intro r t y hy
    have hlen : r.length < y.1.length := by
      refine walk_min_length r.length (queueWeight [(r, t)]) [(r, t)] le_rfl ?_ y hy
      intro x hx
      rcases List.mem_singleton.mp hx with rfl
      exact le_rfl
    refine ⟨hlen, fun heq => ?_⟩
    rw [heq] at hlen
    omega

/-- Concrete regular-file stat data used by witnesses. -/
def regStat : StatResult := ⟨10, 0o100644, 0⟩

/-- Concrete directory stat data used by witnesses. -/
def dirStat : StatResult := ⟨4096, 0o040755, 0⟩

/-- Witness for `no_root_record`: an empty-directory root and a regular-file
root emit nothing, and the record for child `"a"` of root `"r"` is at the
longer path `"r/a"`, not at the root. -/
theorem no_root_record_witness :
    walk [("r", FSNode.dir dirStat [])] = [] ∧
    walk [("f", FSNode.leaf regStat)] = [] ∧
    (("r" ++ "/" ++ "a" : String).length > ("r" : String).length ∧
      ("r" ++ "/" ++ "a" : String) ≠ "r") := by
  have hreg : S_ISDIR regStat.mode = false := by decide
  have hy : (("r" ++ "/" ++ "a" : String), regStat) ∈
      walk [("r", FSNode.dir dirStat [("a", FSNode.leaf regStat)])] := by
    rw [walk_dir]
    simp [walk_nil, nodeStat, hreg]
  have h := no_root_record.2.2.2 "r" (FSNode.dir dirStat [("a", FSNode.leaf regStat)])
    (("r" ++ "/" ++ "a" : String), regStat) hy
  exact ⟨no_root_record.1 "r" dirStat, no_root_record.2.1 "f" regStat, h.1, h.2⟩

/-- Local state of one worker thread inside `worker_thread`'s loop
(scanner.c:142-183): `idle` at the loop top or inside `queue_pop`;
`holding` after `queue_pop` has returned 1 but before the
`atomic_fetch_add` of `active_processes` (the window between scanner.c:147
and scanner.c:151); `expanding e k` after the fetch-add, with `e` records
still to emit and `k` sub-directory pushes still to issue for the popped
directory; `deregistered` after the `atomic_fetch_sub` (scanner.c:178);
`exited` after the thread function returned. -/
inductive WStat where
  | idle : WStat
  | holding : WStat
  | expanding : Nat → Nat → WStat
  | deregistered : WStat
  | exited : WStat
deriving DecidableEq

/-- The predicate evaluated by `check_termination_condition`
(scanner.c:54-61): `active_processes == 0 && count == 0`; when it holds the
function sends `SIGTERM` to the process, whose handler clears `running`. -/
def check_termination_condition (active qcount : Nat) : Bool :=
  active == 0 && qcount == 0

/-- Pointwise update of the worker-state map. -/
def updWorker (f : Fin MAX_THREADS → WStat) (i : Fin MAX_THREADS) (v : WStat) :
    Fin MAX_THREADS → WStat :=
  fun j => if j = i then v else f j

/-- Global state of the concurrent system: number of queued paths, the atomic
`active_processes` counter, the `running` flag, each worker's local state and
the number of records written to the output file so far. -/
structure CState where
  qcount : Nat
  active : Nat
  running : Bool
  workers : Fin MAX_THREADS → WStat
  emitted : Nat

/-- Interleaved small-step semantics of the worker pool (scanner.c:142-183)
against the queue and the counters.  Each transition is one atomic action of
one thread: completing `queue_pop` (which removes the item under the mutex,
scanner.c:101-103, before the caller's `atomic_fetch_add` at scanner.c:151);
running `check_termination_condition` from the pop wait loop (scanner.c:90)
or after deregistering (scanner.c:179), where an `active == 0 && count == 0`
observation sends `SIGTERM` and the handler clears `running`
(scanner.c:54-61, 110-114); registering in-flight (scanner.c:151); emitting
one record (guarded by `running` via the loop condition at scanner.c:156);
pushing one discovered sub-directory (guarded by the wait loop and `running`,
scanner.c:66-78); abandoning the listing once `running` is false
(scanner.c:156); deregistering (scanner.c:178); leaving `queue_pop` empty
(scanner.c:96-98); exiting the loop (scanner.c:146); or an external shutdown
signal (scanner.c:110-114). -/
inductive CStep : CState → CState → Prop
  | popOk (s : CState) (i : Fin MAX_THREADS) :
      s.workers i = WStat.idle → s.running = true → 0 < s.qcount →
      CStep s { s with
        qcount := s.qcount - 1,
        workers := updWorker s.workers i WStat.holding }
  | popWaitCheck (s : CState) (i : Fin MAX_THREADS) :
      s.workers i = WStat.idle → s.running = true → s.qcount = 0 →
      check_termination_condition s.active s.qcount = true →
      CStep s { s with running := false }
  | popEmpty (s : CState) (i : Fin MAX_THREADS) :
      s.workers i = WStat.idle → s.running = false → s.qcount = 0 →
      CStep s { s with workers := updWorker s.workers i WStat.exited }
  | register (s : CState) (i : Fin MAX_THREADS) (emits pushes : Nat) :
      s.workers i = WStat.holding →
      CStep s { s with
        active := s.active + 1,
        workers := updWorker s.workers i (WStat.expanding emits pushes) }
  | emitRecord (s : CState) (i : Fin MAX_THREADS) (emits pushes : Nat) :
      s.workers i = WStat.expanding (emits + 1) pushes → s.running = true →
      CStep s { s with
        emitted := s.emitted + 1,
        workers := updWorker s.workers i (WStat.expanding emits pushes) }
  | pushChild (s : CState) (i : Fin MAX_THREADS) (emits pushes : Nat) :
      s.workers i = WStat.expanding emits (pushes + 1) → s.running = true →
      s.qcount < 1000 →
      CStep s { s with
        qcount := s.qcount + 1,
        workers := updWorker s.workers i (WStat.expanding emits pushes) }
  | abortListing (s : CState) (i : Fin MAX_THREADS) (emits pushes : Nat) :
      s.workers i = WStat.expanding emits pushes → s.running = false →
      CStep s { s with workers := updWorker s.workers i (WStat.expanding 0 0) }
  | finishExpand (s : CState) (i : Fin MAX_THREADS) :
      s.workers i = WStat.expanding 0 0 →
      CStep s { s with
        active := s.active - 1,
        workers := updWorker s.workers i WStat.deregistered }
  | postCheckTerm (s : CState) (i : Fin MAX_THREADS) :
      s.workers i = WStat.deregistered →
      check_termination_condition s.active s.qcount = true →
      CStep s { s with
        running := false,
        workers := updWorker s.workers i WStat.idle }
  | postCheckPass (s : CState) (i : Fin MAX_THREADS) :
      s.workers i = WStat.deregistered →
      CStep s { s with workers := updWorker s.workers i WStat.idle }
  | loopExit (s : CState) (i : Fin MAX_THREADS) :
      s.workers i = WStat.idle → s.running = false →
      CStep s { s with workers := updWorker s.workers i WStat.exited }
  | signal (s : CState) :
      CStep s { s with running := false }

/-- Initial concurrent state: `main` has pushed the root (scanner.c:202) and
started the workers; none has popped yet, `active_processes = 0`,
`running = 1`, no records written. -/
def initC : CState := ⟨1, 0, true, fun _ => WStat.idle, 0⟩

/-- Reachability from the initial concurrent state. -/
inductive CReach : CState → Prop
  | init : CReach initC
  | step {s t : CState} : CReach s → CStep s t → CReach t

/-- Reachability from a designated start state. -/
inductive CReachFrom (s0 : CState) : CState → Prop
  | refl : CReachFrom s0 s0
  | step {s t : CState} : CReachFrom s0 s → CStep s t → CReachFrom s0 t

/-- State after worker 0 completed `queue_pop` of the root but has not yet
executed the `atomic_fetch_add` (the window between scanner.c:147 and
scanner.c:151). -/
def cHold : CState := ⟨0, 0, true, updWorker (fun _ => WStat.idle) 0 WStat.holding, 0⟩

/-- State after worker 1, inside `queue_pop`'s wait loop, ran
`check_termination_condition`, observed `active == 0 && count == 0` and
self-terminated the process (scanner.c:54-61, 89-92, 110-114). -/
def cBad : CState := ⟨0, 0, false, updWorker (fun _ => WStat.idle) 0 WStat.holding, 0⟩

theorem shutdown_absorbing {s0 t : CState} (h : CReachFrom s0 t) :
    s0.running = false → t.running = false ∧ t.emitted = s0.emitted := by
  induction h with
  | refl => exact fun h0 => ⟨h0, rfl⟩
  | step hr hstep ih =>
    intro h0
    obtain ⟨hrun, hemit⟩ := ih h0
    cases hstep <;> simp_all

/-- C1 is refuted on the code.  `worker_thread` increments `active_processes`
only after `queue_pop` has removed the item and released the mutex
(scanner.c:147-151), so `check_termination_condition` can observe
`active == 0 && count == 0` while a worker still holds a
dequeued-but-unexpanded directory: from the initial state (root pushed, all
workers idle) worker 0 completes its pop; worker 1's check inside the pop
wait loop then sees zero-and-empty and self-terminates the process; in the
resulting reachable state worker 0 still holds the root unexpanded, and in
every continuation no record is ever emitted — contradicting the claim that
the zero-and-empty observation implies no held work, and its consequence that
the walk emits one record per resolvable entry. -/
theorem termination_check_race :
    CStep initC cHold ∧
    cHold.active = 0 ∧ cHold.qcount = 0 ∧ cHold.running = true ∧
    cHold.workers 0 = WStat.holding ∧
    check_termination_condition cHold.active cHold.qcount = true ∧
    CStep cHold cBad ∧
    CReach cBad ∧
    cBad.running = false ∧ cBad.workers 0 = WStat.holding ∧
    (∀ t : CState, CReachFrom cBad t → t.emitted = 0) := by
  have h1 : CStep initC cHold := CStep.popOk initC 0 rfl rfl (by decide)
  have h2 : CStep cHold cBad := CStep.popWaitCheck cHold 1 (by decide) rfl rfl (by decide)
  refine ⟨h1, rfl, rfl, rfl, by decide, by decide, h2,
    CReach.step (CReach.step CReach.init h1) h2, rfl, by decide, ?_⟩
  intro t ht
  exact (shutdown_absorbing ht rfl).2

/-- Witness for `termination_check_race`: the bad state itself has no records
emitted. -/
theorem termination_check_race_witness : cBad.emitted = 0 := by
  obtain ⟨-, -, -, -, -, -, -, -, -, -, h⟩ := termination_check_race
  exact h cBad CReachFrom.refl

end Scanner
